import Mathlib

/-!
Shallow embedding of `src/ipopt/ipopt_wrapper.py` (a scipy-style interface to
the Ipopt solver).  Machine reals are modelled as rationals; numpy 1-d arrays
as lists of rationals; Python dictionaries as association lists with unique
keys; user callables as Lean functions, with their fixed extra positional and
keyword arguments (`args`, `kwargs`, per-constraint `args`) absorbed into the
closures, since the wrapper only ever forwards them unchanged.  External
collaborators (numpy, scipy, the cyipopt solver binding) are modelled at their
documented interfaces.
-/

namespace IpoptWrapper

/-- Real vectors (1-d numpy arrays). -/
abbrev Vec := List ℚ

/-- Real matrices (2-d numpy arrays), as a list of rows. -/
abbrev Mat := List (List ℚ)

/-- Python runtime values the wrapper can receive back from user callables:
a scalar, a 1-d array, or a tuple-like (value, gradient) pair.  The wrapper
treats the return value of the user objective as opaque except for the
subscripts `[0]` and `[1]` applied in combined-evaluator mode. -/
inductive PyVal where
  | num : ℚ → PyVal
  | vec : Vec → PyVal
  | pair : PyVal → PyVal → PyVal
deriving DecidableEq

/-- The Python exceptions raised by the embedded code. -/
inductive PyError where
  | notImplementedError : String → PyError
  | valueError : String → PyError
  | typeError : String → PyError
  | indexError : String → PyError
deriving DecidableEq

/-- Python subscript `v[i]`, as applied to the cached combined result. -/
def PyVal.sub : PyVal → ℕ → Except PyError PyVal
  | .pair a _, 0 => .ok a
  | .pair _ b, 1 => .ok b
  | .pair _ _, _ => .error (.indexError ("tuple index out of range"))
  | .vec v, i =>
      match v.get? i with
      | some q => .ok (.num q)
      | none => .error (.indexError ("index out of range"))
  | .num _, _ => .error (.typeError ("object is not subscriptable"))

/-- The scalar carried by a Python value in a numeric context (defaults to 0
on non-numeric values; used only inside the model of the external
finite-difference routine, whose contract requires a scalar-valued function). -/
def PyVal.asNum : PyVal → ℚ
  | .num q => q
  | _ => 0

/-- `x` with `eps` added to component `j` (the forward-difference probe point
`x + eps * e_j`). -/
def perturb (x : Vec) (j : ℕ) (eps : ℚ) : Vec :=
  x.mapIdx (fun i v => if i = j then v + eps else v)

/-- Modelled from the documented behaviour of the external
`scipy.optimize.approx_fprime`: the forward-difference gradient of a
scalar-valued function, with component `j` equal to
`(f(x + eps e_j) - f(x)) / eps`. -/
def approx_fprime (x0 : Vec) (f : Vec → PyVal) (eps : ℚ) : PyVal :=
  .vec ((List.range x0.length).map (fun j =>
    ((f (perturb x0 j eps)).asNum - (f x0).asNum) / eps))

/-- Forward-difference Jacobian of a vector-valued function: the entry in row
`k`, column `j` is `(f(x + eps e_j) - f(x))_k / eps`; there is one row per
component of `f x`. -/
def approxJacMat (f : Vec → Vec) (eps : ℚ) (x : Vec) : Mat :=
  (List.range (f x).length).map (fun k =>
    (List.range x.length).map (fun j =>
      ((f (perturb x j eps)).getD k 0 - (f x).getD k 0) / eps))

/-- Modelled from the spec: `FunctionWithApproxJacobian` is referenced by the
constructor for constraints lacking a Jacobian, but its defining module is not
among the provided sources.  Per the spec (Finite-Difference Differentiator),
it wraps a function, leaving evaluation of the function itself unchanged.
This is the call view of the wrapped object. -/
def FunctionWithApproxJacobian_call (f : Vec → Vec) (_eps : ℚ) : Vec → Vec := f

/-- Modelled from the spec: the `jac` member of `FunctionWithApproxJacobian`,
a forward-difference approximate Jacobian of the wrapped function with step
size `epsilon`. -/
def FunctionWithApproxJacobian_jac (f : Vec → Vec) (eps : ℚ) : Vec → Mat :=
  approxJacMat f eps

/-- The `jac` argument of the constructor: Python `None`, the literal `True`,
a callable, or any other value (neither bool nor callable; this also covers
the literal `False`, which falls through to the same error branch). -/
inductive JacArg where
  | pyNone : JacArg
  | pyTrue : JacArg
  | func : (Vec → PyVal) → JacArg
  | other : JacArg

/-- One constraint specification (a Python dict with keys `fun`, optional
`jac`, `type`, optional `args`; `args` is absorbed into the closures).
Constraint functions are modelled as vector-valued (`np.atleast_1d` is the
identity on this representation, so the arity of a constraint at a point is
the length of its output). -/
structure ConSpec where
  cfun : Vec → Vec
  cjac : Option (Vec → Mat)
  ctype : String

/-- The state of an `IpoptProblemWrapper` object: the fields set by
`__init__` plus the mutable evaluation cache and counters.  `last_value` is
unset in Python until the first combined evaluation; it is never read before
being written because `last_x = none` forces an evaluation, so a dummy
initial value is used here.  In combined mode Python stores the literal
`True` in `self.jac`; it is never called in that mode, so a dummy function
stands in for it. -/
structure Wrapper where
  fun_with_jac : Bool
  fun_ : Vec → PyVal
  jac : Vec → PyVal
  constraint_funs : List (Vec → Vec)
  constraint_jacs : List (Vec → Mat)
  last_x : Option Vec
  last_value : PyVal
  nfev : ℕ
  njev : ℕ
  nit : ℕ

/-- The constraint-processing part of `IpoptProblemWrapper.__init__` (lines
33-51): for each specification, a missing Jacobian is replaced by the
finite-difference wrapper and its `jac` member; counters start at zero and
the cache is empty. -/
def mkWrapper (f : Vec → PyVal) (fwj : Bool) (j : Vec → PyVal)
    (cons : List ConSpec) (eps : ℚ) : Wrapper :=
  { fun_with_jac := fwj
    fun_ := f
    jac := j
    constraint_funs := cons.map (fun c =>
      match c.cjac with
      | some _ => c.cfun
      | none => FunctionWithApproxJacobian_call c.cfun eps)
    constraint_jacs := cons.map (fun c =>
      match c.cjac with
      | some mj => mj
      | none => FunctionWithApproxJacobian_jac c.cfun eps)
    last_x := none
    last_value := PyVal.num 0
    nfev := 0
    njev := 0
    nit := 0 }

/-- `IpoptProblemWrapper.__init__` (lines 16-51).  A single specification
passed as a bare dict is normalised by the source to a one-element tuple;
the model takes the list directly.  `hess` and `hessp` carry no payload the
code inspects, so they are modelled as `Option Unit`. -/
def wrapperInit (f : Vec → PyVal) (jacArg : JacArg) (hess hessp : Option Unit)
    (cons : List ConSpec) (eps : ℚ) : Except PyError Wrapper :=
  if hess.isSome || hessp.isSome then
    .error (.notImplementedError ("Using hessian matrixes is not yet implemented!"))
  else
    match jacArg with
    | .other => .error (.notImplementedError ("jac has to be bool or a function"))
    | .pyNone => .ok (mkWrapper f false (fun x0 => approx_fprime x0 f eps) cons eps)
    | .pyTrue => .ok (mkWrapper f true (fun _ => PyVal.num 0) cons eps)
    | .func g => .ok (mkWrapper f false g cons eps)

/-- `IpoptProblemWrapper.evaluate_fun_with_grad` (lines 53-58): recompute
when no point has been requested yet or the requested point differs from the
cached one (`np.all(self.last_x == x)` is pointwise equality of equal-length
arrays, i.e. list equality here); otherwise return the cached value. -/
def evaluateFunWithGrad (w : Wrapper) (x : Vec) : PyVal × Wrapper :=
  if w.last_x = some x then
    (w.last_value, w)
  else
    let v := w.fun_ x
    (v, { w with last_x := some x, last_value := v, nfev := w.nfev + 1 })

/-- `IpoptProblemWrapper.objective` (lines 60-65). -/
def objective (w : Wrapper) (x : Vec) : Except PyError PyVal × Wrapper :=
  if w.fun_with_jac then
    let (v, w') := evaluateFunWithGrad w x
    (v.sub 0, w')
  else
    (.ok (w.fun_ x), { w with nfev := w.nfev + 1 })

/-- `IpoptProblemWrapper.gradient` (lines 67-72). -/
def gradient (w : Wrapper) (x : Vec) : Except PyError PyVal × Wrapper :=
  if w.fun_with_jac then
    let (v, w') := evaluateFunWithGrad w x
    (v.sub 1, w')
  else
    (.ok (w.jac x), { w with njev := w.njev + 1 })

/-- `IpoptProblemWrapper.constraints` (lines 74-78): `np.hstack` of the
per-constraint values, i.e. their concatenation in list order. -/
def constraintsEval (w : Wrapper) (x : Vec) : Vec :=
  (w.constraint_funs.map (fun f => f x)).flatten

/-- `IpoptProblemWrapper.jacobian` (lines 80-84): `np.vstack` of the
per-constraint Jacobians, i.e. the concatenation of their rows in list
order. -/
def jacobianEval (w : Wrapper) (x : Vec) : Mat :=
  (w.constraint_jacs.map (fun mj => mj x)).flatten

/-- `IpoptProblemWrapper.intermediate` (lines 86-101): records the iteration
count reported by the solver; the other diagnostics are ignored. -/
def intermediate (w : Wrapper) (iter_count : ℕ) : Wrapper :=
  { w with nit := iter_count }

/-- `get_bounds` (lines 104-110). -/
def get_bounds (bounds : Option (List (ℚ × ℚ))) : Option (List ℚ) × Option (List ℚ) :=
  match bounds with
  | none => (none, none)
  | some bs => (some (bs.map Prod.fst), some (bs.map Prod.snd))

/-- `get_constraint_bounds` (lines 113-132): per constraint, `m` zeros are
appended to `cl` and either `m` zeros (type `eq`) or `m` copies of `INF`
(type `ineq`) to `cu`; any other type tag raises `ValueError` carrying the
tag.  `m = len(np.atleast_1d(con.fun(x0)))` is the output length here. -/
def get_constraint_bounds (cons : List ConSpec) (x0 : Vec) (INF : ℚ) :
    Except PyError (Vec × Vec) :=
  match cons with
  | [] => .ok ([], [])
  | con :: rest =>
    let m := (con.cfun x0).length
    if con.ctype = "eq" then
      match get_constraint_bounds rest x0 INF with
      | .ok (cl, cu) => .ok (List.replicate m 0 ++ cl, List.replicate m 0 ++ cu)
      | .error e => .error e
    else if con.ctype = "ineq" then
      match get_constraint_bounds rest x0 INF with
      | .ok (cl, cu) => .ok (List.replicate m 0 ++ cl, List.replicate m INF ++ cu)
      | .error e => .error e
    else
      .error (.valueError con.ctype)

/-- Values held by the solver options dictionary: integers, floats, strings. -/
inductive OptVal where
  | int : ℤ → OptVal
  | real : ℚ → OptVal
  | str : String → OptVal
deriving DecidableEq

/-- A Python dictionary with string keys, modelled as an association list in
insertion order with unique keys. -/
abbrev Options := List (String × OptVal)

/-- Python `k in d`. -/
def dictContains : Options → String → Bool
  | [], _ => false
  | p :: rest, k => if p.1 = k then true else dictContains rest k

/-- Python `d[k]` lookup (`none` when absent). -/
def dictGet? : Options → String → Option OptVal
  | [], _ => none
  | p :: rest, k => if p.1 = k then some p.2 else dictGet? rest k

/-- The removal effect of Python `d.pop(k)`. -/
def dictPop : Options → String → Options
  | [], _ => []
  | p :: rest, k => if p.1 = k then dictPop rest k else p :: dictPop rest k

/-- Python `d[k] = v`: the existing entry is updated in place (order kept),
an absent key is appended. -/
def dictSet : Options → String → OptVal → Options
  | [], k, v => [(k, v)]
  | p :: rest, k, v => if p.1 = k then (k, v) :: rest else p :: dictSet rest k v

/-- `replace_option` (lines 135-138): when the old key is present and the new
key is absent, the entry is moved to the new key; in every other case the
dictionary is untouched (in particular, when the new key is already present
the old key stays in the dictionary). -/
def replace_option (options : Options) (oldname newname : String) : Options :=
  if dictContains options oldname then
    if !(dictContains options newname) then
      match dictGet? options oldname with
      | some v => dictSet (dictPop options oldname) newname v
      | none => options
    else options
  else options

/-- The `if name not in options: options[name] = value` default-insertion
pattern of lines 173-181. -/
def setDefault (d : Options) (k : String) (v : OptVal) : Options :=
  if dictContains d k then d else dictSet d k v

/-- Python `tol or 1e-8` (line 176): `None` and `0` are falsy. -/
def tolOrDefault (tol : Option ℚ) : ℚ :=
  match tol with
  | none => 1 / 10 ^ 8
  | some q => if q = 0 then 1 / 10 ^ 8 else q

/-- The option-translation phase of `minimize_ipopt` (lines 159-181): the
caller-supplied dictionary (a fresh empty one when the argument was omitted)
is mutated in place by the alias renames and the default insertions; this
function gives its final contents, which are also exactly the options passed
to the solver one at a time.  In the source the membership test of the
`hessian_approximation` default is the outer conditional and the
`hess`/`hessp` test the inner one; both tests are pure, so the value is the
same with the nesting below. -/
def option_phase (options0 : Option Options) (tol : Option ℚ)
    (hess hessp : Option Unit) : Options :=
  let options := options0.getD []
  let options := replace_option options ("disp") ("print_level")
  let options := replace_option options ("maxiter") ("max_iter")
  let options := setDefault options ("print_level") (OptVal.int 0)
  let options := setDefault options ("tol") (OptVal.real (tolOrDefault tol))
  let options := setDefault options ("mu_strategy") (OptVal.str ("adaptive"))
  let options := if hess.isNone && hessp.isNone then
      setDefault options ("hessian_approximation") (OptVal.str ("limited-memory"))
    else options
  options

/-- The `x0` argument of `minimize_ipopt`: a bare scalar (zero-dimensional)
or a vector. -/
inductive X0 where
  | scalar : ℚ → X0
  | vector : Vec → X0

/-- `np.atleast_1d(x0)` (line 152). -/
def atleast1dX0 : X0 → Vec
  | .scalar q => [q]
  | .vector v => v

/-- The payload of the solver result (`info`): at least a status code, a
status message and the final objective value. -/
structure SolveInfo where
  status : ℤ
  status_msg : String
  obj_val : ℚ
deriving DecidableEq

/-- The external cyipopt solver, modelled at its interface: which
`addOption` calls it accepts, and `solve`, which drives the problem object
(possibly mutating its cache and counters) and returns a solution vector
with an info payload. -/
structure Solver where
  accepts : String → OptVal → Bool
  solve : Wrapper → Vec → (Vec × SolveInfo) × Wrapper

/-- The first option of the dictionary, in insertion order, that the solver
rejects (the `addOption` loop of lines 182-186 raises at that point). -/
def firstRejected (accepts : String → OptVal → Bool) : Options → Option (String × OptVal)
  | [] => none
  | kv :: rest => if accepts kv.1 kv.2 then firstRejected accepts rest else some kv

/-- The solution entry of the result record: unwrapped to a bare scalar
exactly when `x0` was zero-dimensional (lines 190-191). -/
inductive SolvedX where
  | scalar : ℚ → SolvedX
  | vector : Vec → SolvedX
deriving DecidableEq

/-- The `OptimizeResult` record assembled at lines 193-199. -/
structure OptimizeResult where
  x : SolvedX
  success : Bool
  status : ℤ
  message : String
  fun_val : ℚ
  nfev : ℕ
  njev : ℕ
  nit : ℕ
deriving DecidableEq

/-- `minimize_ipopt` (lines 141-199).  The second component of the returned
pair is the final contents of the caller-supplied options dictionary, which
the source mutates in place (when construction or constraint-bound
translation raises, the dictionary has not been touched yet; once the option
phase has run, its effect is visible to the caller even when an `addOption`
call then raises).  `eps` is not a parameter of the source function: the
wrapper is constructed with its default step `1e-8`, and the sentinel
infinity for constraint bounds is the default `1e19`. -/
def minimize_ipopt (solver : Solver) (f : Vec → PyVal) (x0 : X0)
    (jacArg : JacArg) (hess hessp : Option Unit)
    (bounds : Option (List (ℚ × ℚ))) (cons : List ConSpec) (tol : Option ℚ)
    (options0 : Option Options) :
    Except PyError OptimizeResult × Options :=
  let _x0 := atleast1dX0 x0
  let callerOpts := options0.getD []
  match wrapperInit f jacArg hess hessp cons (1 / 10 ^ 8) with
  | .error e => (.error e, callerOpts)
  | .ok problem =>
    let _lbub := get_bounds bounds
    match get_constraint_bounds cons (atleast1dX0 x0) ((10 : ℚ) ^ 19) with
    | .error e => (.error e, callerOpts)
    | .ok _clcu =>
      let optionsFinal := option_phase options0 tol hess hessp
      match firstRejected solver.accepts optionsFinal with
      | some kv =>
        (.error (.typeError (("Invalid option for IPOPT: ") ++ kv.1)), optionsFinal)
      | none =>
        let ((xsol, info), problem') := solver.solve problem _x0
        let xfinal : SolvedX :=
          match x0 with
          | .scalar _ => .scalar (xsol.getD 0 0)
          | .vector _ => .vector xsol
        (.ok { x := xfinal
               success := info.status == 0
               status := info.status
               message := info.status_msg
               fun_val := info.obj_val
               nfev := problem'.nfev
               njev := problem'.njev
               nit := problem'.nit },
         optionsFinal)

/-- A demonstration solver that accepts every option and returns the initial
point with status 0, leaving the problem object untouched. -/
def acceptAllSolver : Solver :=
  { accepts := fun _ _ => true
    solve := fun w v => ((v, { status := 0, status_msg := ("ok"), obj_val := 0 }), w) }

/-- A demonstration solver that rejects exactly the option named `disp`
(as the real solver would, `disp` not being an Ipopt option name). -/
def dispRejectingSolver : Solver :=
  { accepts := fun k _ => !(k == ("disp"))
    solve := fun w v => ((v, { status := 0, status_msg := ("ok"), obj_val := 0 }), w) }

/-! Helper lemmas (shared; not claim theorems). -/

/-- On a list of well-tagged constraints, `get_constraint_bounds` succeeds and
returns the concatenated per-constraint bound segments. -/
theorem gcb_eq (cons : List ConSpec) (x0 : Vec) (INF : ℚ)
    (h : ∀ c ∈ cons, c.ctype = "eq" ∨ c.ctype = "ineq") :
    get_constraint_bounds cons x0 INF =
      .ok ((cons.map (fun c => List.replicate (c.cfun x0).length (0 : ℚ))).flatten,
           (cons.map (fun c => List.replicate (c.cfun x0).length
             (if c.ctype = "eq" then (0 : ℚ) else INF))).flatten) := by
  induction cons with
  | nil => simp [get_constraint_bounds]
  | cons c cs ih =>
    have hcs : ∀ c' ∈ cs, c'.ctype = "eq" ∨ c'.ctype = "ineq" :=
      fun c' hc' => h c' (by simp [hc'])
    rcases h c (by simp) with hc | hc
    · simp [get_constraint_bounds, hc, ih hcs]
    · have hne : ¬ (c.ctype = "eq") := by rw [hc]; decide
      simp [get_constraint_bounds, hc, hne, ih hcs]

/-- C4: for every well-tagged constraint list and probe point `x0`, the
constraint-bound translator produces `cl` and `cu` of equal length
`sum(m_i)` with `m_i = length(constraint_i(x0))`; the `m_i` entries of an
equality constraint are 0 in both vectors, those of an inequality constraint
are 0 in `cl` and the sentinel `INF` in `cu`, concatenated in
constraint-list order. -/
theorem constraint_bounds_structure (cons : List ConSpec) (x0 : Vec) (INF : ℚ)
    (h : ∀ c ∈ cons, c.ctype = "eq" ∨ c.ctype = "ineq") :
    ∃ cl cu, get_constraint_bounds cons x0 INF = .ok (cl, cu) ∧
      cl = (cons.map (fun c => List.replicate (c.cfun x0).length (0 : ℚ))).flatten ∧
      cu = (cons.map (fun c => List.replicate (c.cfun x0).length
              (if c.ctype = "eq" then (0 : ℚ) else INF))).flatten ∧
      cl.length = (cons.map (fun c => (c.cfun x0).length)).sum ∧
      cu.length = (cons.map (fun c => (c.cfun x0).length)).sum := by
  refine ⟨_, _, gcb_eq cons x0 INF h, rfl, rfl, ?_, ?_⟩ <;>
    simp [Function.comp_def]

/-- C4 witness at a concrete two-constraint list (one equality of arity 2,
one inequality of arity 1). -/
theorem constraint_bounds_structure_witness :
    (∀ c ∈ [ConSpec.mk (fun v => [v.getD 0 0, v.getD 1 0]) none ("eq"),
            ConSpec.mk (fun v => [v.getD 0 0]) none ("ineq")],
       c.ctype = "eq" ∨ c.ctype = "ineq") ∧
    ∃ cl cu,
      get_constraint_bounds
        [ConSpec.mk (fun v => [v.getD 0 0, v.getD 1 0]) none ("eq"),
         ConSpec.mk (fun v => [v.getD 0 0]) none ("ineq")] [3, 4] ((10 : ℚ) ^ 19) =
        .ok (cl, cu) ∧
      cl = ([ConSpec.mk (fun v => [v.getD 0 0, v.getD 1 0]) none ("eq"),
             ConSpec.mk (fun v => [v.getD 0 0]) none ("ineq")].map
               (fun c => List.replicate (c.cfun [3, 4]).length (0 : ℚ))).flatten ∧
      cu = ([ConSpec.mk (fun v => [v.getD 0 0, v.getD 1 0]) none ("eq"),
             ConSpec.mk (fun v => [v.getD 0 0]) none ("ineq")].map
               (fun c => List.replicate (c.cfun [3, 4]).length
                 (if c.ctype = "eq" then (0 : ℚ) else (10 : ℚ) ^ 19))).flatten ∧
      cl.length = ([ConSpec.mk (fun v => [v.getD 0 0, v.getD 1 0]) none ("eq"),
                    ConSpec.mk (fun v => [v.getD 0 0]) none ("ineq")].map
                     (fun c => (c.cfun [3, 4]).length)).sum ∧
      cu.length = ([ConSpec.mk (fun v => [v.getD 0 0, v.getD 1 0]) none ("eq"),
                    ConSpec.mk (fun v => [v.getD 0 0]) none ("ineq")].map
                     (fun c => (c.cfun [3, 4]).length)).sum := by
  refine ⟨by simp, constraint_bounds_structure _ _ _ (by simp)⟩

/-- C7: a constraint whose kind tag is neither `eq` nor `ineq` makes
constraint-bound translation fail with a `ValueError` carrying the offending
tag, and `minimize_ipopt` fails the same way during setup, for every solver
(the solver is never consulted) and with the caller options untouched. -/
theorem invalid_constraint_kind_error (pre : List ConSpec) (bad : ConSpec)
    (rest : List ConSpec)
    (hpre : ∀ c ∈ pre, c.ctype = "eq" ∨ c.ctype = "ineq")
    (hbad : bad.ctype ≠ "eq") (hbad' : bad.ctype ≠ "ineq") :
    (∀ (x0 : Vec) (INF : ℚ),
      get_constraint_bounds (pre ++ bad :: rest) x0 INF =
        .error (.valueError bad.ctype)) ∧
    (∀ (solver : Solver) (f : Vec → PyVal) (x0 : X0) (jacArg : JacArg)
       (bounds : Option (List (ℚ × ℚ))) (tol : Option ℚ)
       (options0 : Option Options), jacArg ≠ JacArg.other →
      minimize_ipopt solver f x0 jacArg none none bounds (pre ++ bad :: rest)
          tol options0 =
        (.error (.valueError bad.ctype), options0.getD [])) := by
  have hfail : ∀ (x0 : Vec) (INF : ℚ),
      get_constraint_bounds (pre ++ bad :: rest) x0 INF =
        .error (.valueError bad.ctype) := by
    intro x0 INF
    induction pre with
    | nil => simp [get_constraint_bounds, hbad, hbad']
    | cons c cs ih =>
      have hcs : ∀ c' ∈ cs, c'.ctype = "eq" ∨ c'.ctype = "ineq" :=
        fun c' hc' => hpre c' (by simp [hc'])
      have ih' := ih hcs
      rcases hpre c (by simp) with hc | hc
      · simp [get_constraint_bounds, hc, ih']
      · have hne : ¬ (c.ctype = "eq") := by rw [hc]; decide
        simp [get_constraint_bounds, hc, hne, ih']
  refine ⟨hfail, ?_⟩
  intro solver f x0 jacArg bounds tol options0 hja
  cases jacArg with
  | other => exact absurd rfl hja
  | pyNone => simp [minimize_ipopt, wrapperInit, hfail]
  | pyTrue => simp [minimize_ipopt, wrapperInit, hfail]
  | func g => simp [minimize_ipopt, wrapperInit, hfail]

/-- C7 witness: a concrete constraint list whose second entry carries the
tag `neq`. -/
theorem invalid_constraint_kind_error_witness :
    (∀ c ∈ [ConSpec.mk (fun v => v) none ("eq")],
       c.ctype = "eq" ∨ c.ctype = "ineq") ∧
    (ConSpec.mk (fun v => v) none ("neq")).ctype ≠ "eq" ∧
    (ConSpec.mk (fun v => v) none ("neq")).ctype ≠ "ineq" ∧
    get_constraint_bounds
        ([ConSpec.mk (fun v => v) none ("eq")] ++
          ConSpec.mk (fun v => v) none ("neq") :: []) [1] ((10 : ℚ) ^ 19) =
      .error (.valueError ("neq")) := by
  refine ⟨by simp, by decide, by decide, ?_⟩
  exact (invalid_constraint_kind_error [ConSpec.mk (fun v => v) none ("eq")]
    (ConSpec.mk (fun v => v) none ("neq")) [] (by simp) (by decide) (by decide)).1
    [1] ((10 : ℚ) ^ 19)

/-- C6: a non-absent `hess` or `hessp` argument makes construction raise
`NotImplementedError`, whatever the other arguments, and `minimize_ipopt`
propagates that error for every solver (so no solver iteration can begin and
no second-derivative information is ever produced) with the caller options
untouched. -/
theorem hessian_rejected_at_construction (f : Vec → PyVal) (jacArg : JacArg)
    (hess hessp : Option Unit) (cons : List ConSpec) (eps : ℚ)
    (h : hess ≠ none ∨ hessp ≠ none) :
    wrapperInit f jacArg hess hessp cons eps =
      .error (.notImplementedError
        ("Using hessian matrixes is not yet implemented!")) ∧
    ∀ (solver : Solver) (x0 : X0) (bounds : Option (List (ℚ × ℚ)))
      (tol : Option ℚ) (options0 : Option Options),
      minimize_ipopt solver f x0 jacArg hess hessp bounds cons tol options0 =
        (.error (.notImplementedError
          ("Using hessian matrixes is not yet implemented!")),
         options0.getD []) := by
  have hb : (hess.isSome || hessp.isSome) = true := by
    rcases h with h | h
    · simp [Option.isSome_iff_ne_none, h]
    · simp [Option.isSome_iff_ne_none, h]
  constructor
  · simp [wrapperInit, hb]
  · intro solver x0 bounds tol options0
    simp [minimize_ipopt, wrapperInit, hb]

/-- C6 witness: `hess = some ()` with otherwise benign arguments. -/
theorem hessian_rejected_at_construction_witness :
    ((some () : Option Unit) ≠ none ∨ (none : Option Unit) ≠ none) ∧
    wrapperInit (fun _ => PyVal.num 0) JacArg.pyNone (some ()) none [] 1 =
      .error (.notImplementedError
        ("Using hessian matrixes is not yet implemented!")) := by
  refine ⟨Or.inl (by decide), ?_⟩
  exact (hessian_rejected_at_construction (fun _ => PyVal.num 0) JacArg.pyNone
    (some ()) none [] 1 (Or.inl (by decide))).1

/-- C1: in combined-evaluator mode (`jac = True`), starting from a freshly
constructed wrapper, `objective x` performs one combined evaluation
(objective counter 0 to 1, cache holds `x`), the following `gradient x` at
the identical point performs none (counters unchanged, gradient counter
still 0), and a later `objective y` at a distinct point performs exactly one
more combined evaluation, replacing the cache (objective counter 2). -/
theorem combined_mode_cache_and_counters (f : Vec → PyVal)
    (cons : List ConSpec) (eps : ℚ) (x y : Vec) (hxy : x ≠ y) (w0 : Wrapper)
    (h : wrapperInit f JacArg.pyTrue none none cons eps = .ok w0) :
    ((objective w0 x).2.nfev = 1 ∧ (objective w0 x).2.njev = 0 ∧
     (objective w0 x).2.last_x = some x ∧
     (objective w0 x).2.last_value = f x) ∧
    ((gradient (objective w0 x).2 x).2 = (objective w0 x).2) ∧
    ((objective (gradient (objective w0 x).2 x).2 y).2.nfev = 2 ∧
     (objective (gradient (objective w0 x).2 x).2 y).2.njev = 0 ∧
     (objective (gradient (objective w0 x).2 x).2 y).2.last_x = some y ∧
     (objective (gradient (objective w0 x).2 x).2 y).2.last_value = f y) := by
  have hw : w0 = mkWrapper f true (fun _ => PyVal.num 0) cons eps := by
    simp [wrapperInit] at h
    exact h.symm
  subst hw
  simp [objective, gradient, evaluateFunWithGrad, mkWrapper, hxy]

/-- C1 witness: a concrete combined evaluator at the points `[0]` and `[1]`. -/
theorem combined_mode_cache_and_counters_witness :
    (([0] : Vec) ≠ [1]) ∧
    (let f : Vec → PyVal := fun v => PyVal.pair (PyVal.num (v.getD 0 0)) (PyVal.vec v)
     let w0 := mkWrapper f true (fun _ => PyVal.num 0) [] 1
     ((objective w0 [0]).2.nfev = 1 ∧ (objective w0 [0]).2.njev = 0 ∧
      (objective w0 [0]).2.last_x = some [0] ∧
      (objective w0 [0]).2.last_value = f [0]) ∧
     ((gradient (objective w0 [0]).2 [0]).2 = (objective w0 [0]).2) ∧
     ((objective (gradient (objective w0 [0]).2 [0]).2 [1]).2.nfev = 2 ∧
      (objective (gradient (objective w0 [0]).2 [0]).2 [1]).2.njev = 0 ∧
      (objective (gradient (objective w0 [0]).2 [0]).2 [1]).2.last_x = some [1] ∧
      (objective (gradient (objective w0 [0]).2 [0]).2 [1]).2.last_value = f [1])) := by
  refine ⟨by decide, ?_⟩
  exact combined_mode_cache_and_counters
    (fun v => PyVal.pair (PyVal.num (v.getD 0 0)) (PyVal.vec v)) [] 1 [0] [1]
    (by decide) _ rfl

/-- C10: outside combined-evaluator mode, every `gradient` call increments
the gradient counter by exactly 1 and leaves the objective counter (and the
cache) unchanged; both the `jac = None` construction (which installs the
forward-difference approximation, itself evaluating the objective function
directly, not through the counted `objective` operation) and a user-supplied
callable produce a wrapper in that mode. -/
theorem plain_mode_gradient_counters (f : Vec → PyVal) (cons : List ConSpec)
    (eps : ℚ) :
    (∀ (w : Wrapper) (x : Vec), w.fun_with_jac = false →
      (gradient w x).2.njev = w.njev + 1 ∧ (gradient w x).2.nfev = w.nfev ∧
      (gradient w x).2.last_x = w.last_x) ∧
    (∀ w0, wrapperInit f JacArg.pyNone none none cons eps = .ok w0 →
      w0.fun_with_jac = false ∧ ∀ x, w0.jac x = approx_fprime x f eps) ∧
    (∀ (g : Vec → PyVal) w0,
      wrapperInit f (JacArg.func g) none none cons eps = .ok w0 →
      w0.fun_with_jac = false ∧ w0.jac = g) := by
  refine ⟨?_, ?_, ?_⟩
  · intro w x hw
    simp [gradient, hw]
  · intro w0 h
    simp [wrapperInit] at h
    subst h
    exact ⟨rfl, fun _ => rfl⟩
  · intro g w0 h
    simp [wrapperInit] at h
    subst h
    exact ⟨rfl, rfl⟩

/-- C10 witness: a concrete plain-mode wrapper built with `jac = None`. -/
theorem plain_mode_gradient_counters_witness :
    (mkWrapper (fun v => PyVal.num (v.getD 0 0)) false
        (fun x0 => approx_fprime x0 (fun v => PyVal.num (v.getD 0 0)) 1) [] 1).fun_with_jac
      = false ∧
    (gradient (mkWrapper (fun v => PyVal.num (v.getD 0 0)) false
        (fun x0 => approx_fprime x0 (fun v => PyVal.num (v.getD 0 0)) 1) [] 1) [2, 3]).2.njev
      = (mkWrapper (fun v => PyVal.num (v.getD 0 0)) false
        (fun x0 => approx_fprime x0 (fun v => PyVal.num (v.getD 0 0)) 1) [] 1).njev + 1 ∧
    (gradient (mkWrapper (fun v => PyVal.num (v.getD 0 0)) false
        (fun x0 => approx_fprime x0 (fun v => PyVal.num (v.getD 0 0)) 1) [] 1) [2, 3]).2.nfev
      = (mkWrapper (fun v => PyVal.num (v.getD 0 0)) false
        (fun x0 => approx_fprime x0 (fun v => PyVal.num (v.getD 0 0)) 1) [] 1).nfev := by
  refine ⟨rfl, ?_, ?_⟩
  · exact ((plain_mode_gradient_counters (fun v => PyVal.num (v.getD 0 0)) [] 1).1
      _ [2, 3] rfl).1
  · exact ((plain_mode_gradient_counters (fun v => PyVal.num (v.getD 0 0)) [] 1).1
      _ [2, 3] rfl).2.1

/-- The wrapper treats a constraint function wrapped for finite differences
as the function itself, and its synthesized Jacobian as the
forward-difference Jacobian (helper, shared). -/
theorem mkWrapper_constraint_eval (f : Vec → PyVal) (fwj : Bool)
    (j : Vec → PyVal) (cons : List ConSpec) (eps : ℚ) (x : Vec) :
    constraintsEval (mkWrapper f fwj j cons eps) x =
      (cons.map (fun c => c.cfun x)).flatten ∧
    jacobianEval (mkWrapper f fwj j cons eps) x =
      (cons.map (fun c =>
        match c.cjac with
        | some mj => mj x
        | none => approxJacMat c.cfun eps x)).flatten := by
  constructor
  · simp only [constraintsEval, mkWrapper, List.map_map]
    refine congrArg _ (List.map_congr_left ?_)
    intro c _
    cases hc : c.cjac <;> simp [hc, FunctionWithApproxJacobian_call]
  · simp only [jacobianEval, mkWrapper, List.map_map]
    refine congrArg _ (List.map_congr_left ?_)
    intro c _
    cases hc : c.cjac <;> simp [hc, FunctionWithApproxJacobian_jac]

/-- Row counts of stacked Jacobians match stacked constraint lengths when
every supplied Jacobian has one row per constraint component (helper,
shared). -/
theorem stacked_rowcount (cons : List ConSpec) (eps : ℚ) (x : Vec)
    (hjac : ∀ c ∈ cons, ∀ mj, c.cjac = some mj →
      (mj x).length = (c.cfun x).length) :
    ((cons.map (fun c =>
        match c.cjac with
        | some mj => mj x
        | none => approxJacMat c.cfun eps x)).flatten).length =
      ((cons.map (fun c => c.cfun x)).flatten).length := by
  induction cons with
  | nil => rfl
  | cons c cs ih =>
    have ih' := ih (fun c' hc' => hjac c' (by simp [hc']))
    simp only [List.map_cons, List.flatten_cons, List.length_append, ih']
    cases hc : c.cjac with
    | some mj => rw [hjac c (by simp) mj hc]
    | none => simp [approxJacMat]

/-- C2: with `jac = None` (and likewise any valid gradient specification),
construction succeeds for every constraint list; each specification lacking
its own Jacobian receives the synthesized forward-difference Jacobian, and
`jacobian(x)` evaluates every per-constraint Jacobian (supplied or
finite-difference-derived) in list order and stacks the rows. -/
theorem fd_jacobian_synthesized_per_constraint (f : Vec → PyVal)
    (cons : List ConSpec) (eps : ℚ) :
    ∃ w, wrapperInit f JacArg.pyNone none none cons eps = .ok w ∧
      w.constraint_jacs = cons.map (fun c =>
        match c.cjac with
        | some mj => mj
        | none => approxJacMat c.cfun eps) ∧
      ∀ x, jacobianEval w x = (cons.map (fun c =>
        match c.cjac with
        | some mj => mj x
        | none => approxJacMat c.cfun eps x)).flatten := by
  refine ⟨_, rfl, ?_, ?_⟩
  · simp only [mkWrapper]
    refine List.map_congr_left ?_
    intro c _
    cases c.cjac <;> rfl
  · intro x
    exact (mkWrapper_constraint_eval f false _ cons eps x).2

/-- C8: for a wrapper built from any valid construction, `constraints(x)` is
the concatenation of the per-constraint outputs in list order, `jacobian(x)`
stacks the per-constraint Jacobian rows in the same order, and, whenever
every supplied Jacobian has one row per component of its constraint, the row
count of `jacobian(x)` equals the length of `constraints(x)`. -/
theorem constraints_jacobian_order_and_rowcount (f : Vec → PyVal)
    (jacArg : JacArg) (cons : List ConSpec) (eps : ℚ) (w : Wrapper)
    (h : wrapperInit f jacArg none none cons eps = .ok w) (x : Vec)
    (hjac : ∀ c ∈ cons, ∀ mj, c.cjac = some mj →
      (mj x).length = (c.cfun x).length) :
    constraintsEval w x = (cons.map (fun c => c.cfun x)).flatten ∧
    jacobianEval w x = (cons.map (fun c =>
      match c.cjac with
      | some mj => mj x
      | none => approxJacMat c.cfun eps x)).flatten ∧
    (jacobianEval w x).length = (constraintsEval w x).length := by
  have hmk : ∃ fwj j, w = mkWrapper f fwj j cons eps := by
    cases jacArg with
    | other => simp [wrapperInit] at h
    | pyNone =>
      simp [wrapperInit] at h
      exact ⟨_, _, h.symm⟩
    | pyTrue =>
      simp [wrapperInit] at h
      exact ⟨_, _, h.symm⟩
    | func g =>
      simp [wrapperInit] at h
      exact ⟨_, _, h.symm⟩
  obtain ⟨fwj, j, hw⟩ := hmk
  subst hw
  obtain ⟨h1, h2⟩ := mkWrapper_constraint_eval f fwj j cons eps x
  refine ⟨h1, h2, ?_⟩
  rw [h1, h2]
  exact stacked_rowcount cons eps x hjac

/-- C8 witness: one supplied Jacobian (2 rows) followed by one synthesized
Jacobian (1 row), evaluated at `[1, 2]`. -/
theorem constraints_jacobian_order_and_rowcount_witness :
    (wrapperInit (fun _ => PyVal.num 0) JacArg.pyNone none none
        [ConSpec.mk (fun v => [v.getD 0 0, v.getD 1 0])
           (some (fun _ => [[1, 0], [0, 1]])) ("eq"),
         ConSpec.mk (fun v => [v.getD 0 0 + v.getD 1 0]) none ("ineq")] 1 =
      .ok (mkWrapper (fun _ => PyVal.num 0) false
        (fun x0 => approx_fprime x0 (fun _ => PyVal.num 0) 1)
        [ConSpec.mk (fun v => [v.getD 0 0, v.getD 1 0])
           (some (fun _ => [[1, 0], [0, 1]])) ("eq"),
         ConSpec.mk (fun v => [v.getD 0 0 + v.getD 1 0]) none ("ineq")] 1)) ∧
    (∀ c ∈ [ConSpec.mk (fun v => [v.getD 0 0, v.getD 1 0])
              (some (fun _ => [[1, 0], [0, 1]])) ("eq"),
            ConSpec.mk (fun v => [v.getD 0 0 + v.getD 1 0]) none ("ineq")],
      ∀ mj, c.cjac = some mj →
        (mj [1, 2]).length = (c.cfun ([1, 2] : Vec)).length) ∧
    (jacobianEval (mkWrapper (fun _ => PyVal.num 0) false
        (fun x0 => approx_fprime x0 (fun _ => PyVal.num 0) 1)
        [ConSpec.mk (fun v => [v.getD 0 0, v.getD 1 0])
           (some (fun _ => [[1, 0], [0, 1]])) ("eq"),
         ConSpec.mk (fun v => [v.getD 0 0 + v.getD 1 0]) none ("ineq")] 1)
       [1, 2]).length =
      (constraintsEval (mkWrapper (fun _ => PyVal.num 0) false
        (fun x0 => approx_fprime x0 (fun _ => PyVal.num 0) 1)
        [ConSpec.mk (fun v => [v.getD 0 0, v.getD 1 0])
           (some (fun _ => [[1, 0], [0, 1]])) ("eq"),
         ConSpec.mk (fun v => [v.getD 0 0 + v.getD 1 0]) none ("ineq")] 1)
       [1, 2]).length := by
  have hj : ∀ c ∈ [ConSpec.mk (fun v => [v.getD 0 0, v.getD 1 0])
              (some (fun _ => [[(1 : ℚ), 0], [0, 1]])) ("eq"),
            ConSpec.mk (fun v => [v.getD 0 0 + v.getD 1 0]) none ("ineq")],
      ∀ mj, c.cjac = some mj →
        (mj [1, 2]).length = (c.cfun ([1, 2] : Vec)).length := by
    intro c hc mj hmj
    rcases List.mem_cons.mp hc with hc | hc
    · subst hc
      have hm : mj = fun _ : Vec => [[(1 : ℚ), 0], [0, 1]] := by
        simp only [Option.some.injEq] at hmj
        exact hmj.symm
      subst hm
      simp
    · rcases List.mem_cons.mp hc with hc | hc
      · subst hc
        simp at hmj
      · simp at hc
  refine ⟨rfl, hj, ?_⟩
  exact (constraints_jacobian_order_and_rowcount (fun _ => PyVal.num 0)
    JacArg.pyNone _ 1 _ rfl [1, 2] hj).2.2

/-! Dictionary lemmas (helpers, shared). -/

/-- Reduction of `dictSet` on a matching head. -/
theorem dictSet_cons_pos (p : String × OptVal) (rest : Options)
    (k : String) (v : OptVal) (hp : p.1 = k) :
    dictSet (p :: rest) k v = (k, v) :: rest := by
  simp [dictSet, hp]

/-- Reduction of `dictSet` on a non-matching head. -/
theorem dictSet_cons_neg (p : String × OptVal) (rest : Options)
    (k : String) (v : OptVal) (hp : ¬ (p.1 = k)) :
    dictSet (p :: rest) k v = p :: dictSet rest k v := by
  simp [dictSet, hp]

/-- Reduction of `dictPop` on a matching head. -/
theorem dictPop_cons_pos (p : String × OptVal) (rest : Options)
    (k : String) (hp : p.1 = k) :
    dictPop (p :: rest) k = dictPop rest k := by
  simp [dictPop, hp]

/-- Reduction of `dictPop` on a non-matching head. -/
theorem dictPop_cons_neg (p : String × OptVal) (rest : Options)
    (k : String) (hp : ¬ (p.1 = k)) :
    dictPop (p :: rest) k = p :: dictPop rest k := by
  simp [dictPop, hp]

/-- Membership after `dictSet`. -/
theorem dictContains_dictSet (d : Options) (k : String) (v : OptVal)
    (k' : String) :
    dictContains (dictSet d k v) k' =
      (dictContains d k' || decide (k = k')) := by
  induction d with
  | nil =>
    by_cases hk : k = k' <;> simp [dictContains, dictSet, hk]
  | cons p rest ih =>
    by_cases hp : p.1 = k
    · rw [dictSet_cons_pos p rest k v hp]
      by_cases hk : k = k'
      · have h1 : p.1 = k' := hp.trans hk
        simp [dictContains, hk, h1]
      · have h1 : ¬ (p.1 = k') := fun he => hk (hp.symm.trans he)
        simp [dictContains, hk, h1]
    · rw [dictSet_cons_neg p rest k v hp]
      by_cases hk' : p.1 = k'
      · simp [dictContains, hk']
      · simp [dictContains, hk', ih]

/-- A present key has a value. -/
theorem get?_some_of_contains (d : Options) (k : String)
    (h : dictContains d k = true) : ∃ v, dictGet? d k = some v := by
  induction d with
  | nil => simp [dictContains] at h
  | cons p rest ih =>
    by_cases hp : p.1 = k
    · exact ⟨p.2, by simp [dictGet?, hp]⟩
    · have h' : dictContains rest k = true := by
        simpa [dictContains, hp] using h
      obtain ⟨v, hv⟩ := ih h'
      exact ⟨v, by simpa [dictGet?, hp] using hv⟩

/-- Lookup of the written key after `dictSet`. -/
theorem dictGet?_dictSet_self (d : Options) (k : String) (v : OptVal) :
    dictGet? (dictSet d k v) k = some v := by
  induction d with
  | nil => simp [dictGet?, dictSet]
  | cons p rest ih =>
    by_cases hp : p.1 = k
    · rw [dictSet_cons_pos p rest k v hp]
      simp [dictGet?]
    · rw [dictSet_cons_neg p rest k v hp]
      simp [dictGet?, hp, ih]

/-- Lookup of a different key after `dictSet`. -/
theorem dictGet?_dictSet_other (d : Options) (k : String) (v : OptVal)
    (k' : String) (h : k' ≠ k) :
    dictGet? (dictSet d k v) k' = dictGet? d k' := by
  have hne : ¬ (k = k') := fun he => h he.symm
  induction d with
  | nil => simp [dictGet?, dictSet, hne]
  | cons p rest ih =>
    by_cases hp : p.1 = k
    · have hpk' : ¬ (p.1 = k') := fun he => hne (hp.symm.trans he)
      rw [dictSet_cons_pos p rest k v hp]
      simp [dictGet?, hne, hpk']
    · rw [dictSet_cons_neg p rest k v hp]
      by_cases hk' : p.1 = k'
      · simp [dictGet?, hk']
      · simp [dictGet?, hk', ih]

/-- The popped key is gone. -/
theorem dictContains_dictPop_self (d : Options) (k : String) :
    dictContains (dictPop d k) k = false := by
  induction d with
  | nil => rfl
  | cons p rest ih =>
    by_cases hp : p.1 = k
    · rw [dictPop_cons_pos p rest k hp]
      exact ih
    · rw [dictPop_cons_neg p rest k hp]
      simp [dictContains, hp, ih]

/-- Other keys survive `dictPop`. -/
theorem dictContains_dictPop_other (d : Options) (k k' : String)
    (h : k' ≠ k) :
    dictContains (dictPop d k) k' = dictContains d k' := by
  induction d with
  | nil => rfl
  | cons p rest ih =>
    by_cases hp : p.1 = k
    · have hpk' : ¬ (p.1 = k') := fun he => h (he.symm.trans hp)
      rw [dictPop_cons_pos p rest k hp, ih]
      simp [dictContains, hpk']
    · rw [dictPop_cons_neg p rest k hp]
      simp [dictContains, ih]

/-- Other keys keep their values through `dictPop`. -/
theorem dictGet?_dictPop_other (d : Options) (k k' : String) (h : k' ≠ k) :
    dictGet? (dictPop d k) k' = dictGet? d k' := by
  induction d with
  | nil => rfl
  | cons p rest ih =>
    by_cases hp : p.1 = k
    · have hpk' : ¬ (p.1 = k') := fun he => h (he.symm.trans hp)
      rw [dictPop_cons_pos p rest k hp, ih]
      simp [dictGet?, hpk']
    · rw [dictPop_cons_neg p rest k hp]
      by_cases hk' : p.1 = k'
      · simp [dictGet?, hk']
      · simp [dictGet?, hk', ih]

/-! Lemmas about `replace_option`, `setDefault` and `option_phase`
(helpers, shared). -/

/-- `replace_option` does nothing when the old key is absent. -/
theorem replace_option_noop_absent (d : Options) (old new : String)
    (h : dictContains d old = false) :
    replace_option d old new = d := by
  simp [replace_option, h]

/-- `replace_option` does nothing when the new key is already present; in
particular the old key is NOT removed in that case. -/
theorem replace_option_noop_target (d : Options) (old new : String)
    (h : dictContains d new = true) :
    replace_option d old new = d := by
  by_cases ho : dictContains d old
  · simp [replace_option, ho, h]
  · simp [replace_option, ho]

/-- When the old key is present and the new one absent, `replace_option`
moves the entry. -/
theorem replace_option_rename (d : Options) (old new : String)
    (h1 : dictContains d old = true) (h2 : dictContains d new = false) :
    ∃ v, dictGet? d old = some v ∧
      replace_option d old new = dictSet (dictPop d old) new v := by
  obtain ⟨v, hv⟩ := get?_some_of_contains d old h1
  exact ⟨v, hv, by simp [replace_option, h1, h2, hv]⟩

/-- Keys other than the two named ones are untouched by `replace_option`. -/
theorem contains_replace_option_other (d : Options) (old new k : String)
    (h1 : k ≠ old) (h2 : k ≠ new) :
    dictContains (replace_option d old new) k = dictContains d k := by
  cases ho : dictContains d old with
  | false => rw [replace_option_noop_absent d old new ho]
  | true =>
    cases hn : dictContains d new with
    | true => rw [replace_option_noop_target d old new hn]
    | false =>
      obtain ⟨v, _, he⟩ := replace_option_rename d old new ho hn
      rw [he, dictContains_dictSet, dictContains_dictPop_other d old k h1,
        decide_eq_false (fun hh => h2 hh.symm)]
      simp

/-- Presence of the old key after `replace_option`: it survives exactly when
both keys were present (the rename is skipped and nothing is removed). -/
theorem contains_replace_option_old (d : Options) (old new : String)
    (hon : old ≠ new) :
    dictContains (replace_option d old new) old =
      (dictContains d old && dictContains d new) := by
  cases ho : dictContains d old with
  | false =>
    rw [replace_option_noop_absent d old new ho]
    simp [ho]
  | true =>
    cases hn : dictContains d new with
    | true =>
      rw [replace_option_noop_target d old new hn]
      simp [ho, hn]
    | false =>
      obtain ⟨v, _, he⟩ := replace_option_rename d old new ho hn
      rw [he, dictContains_dictSet, dictContains_dictPop_self,
        decide_eq_false (fun hh => hon hh.symm)]
      simp [hn]

/-- Presence of the new key after `replace_option`. -/
theorem contains_replace_option_new (d : Options) (old new : String) :
    dictContains (replace_option d old new) new =
      (dictContains d old || dictContains d new) := by
  cases ho : dictContains d old with
  | false =>
    rw [replace_option_noop_absent d old new ho]
    simp [ho]
  | true =>
    cases hn : dictContains d new with
    | true =>
      rw [replace_option_noop_target d old new hn]
      simp [ho, hn]
    | false =>
      obtain ⟨v, _, he⟩ := replace_option_rename d old new ho hn
      rw [he, dictContains_dictSet]
      simp [ho, hn]

/-- Values of keys other than the two named ones are untouched by
`replace_option`. -/
theorem get_replace_option_other (d : Options) (old new k : String)
    (h1 : k ≠ old) (h2 : k ≠ new) :
    dictGet? (replace_option d old new) k = dictGet? d k := by
  cases ho : dictContains d old with
  | false => rw [replace_option_noop_absent d old new ho]
  | true =>
    cases hn : dictContains d new with
    | true => rw [replace_option_noop_target d old new hn]
    | false =>
      obtain ⟨v, _, he⟩ := replace_option_rename d old new ho hn
      rw [he, dictGet?_dictSet_other _ _ _ _ h2, dictGet?_dictPop_other _ _ _ h1]

/-- After a rename the new key holds the old value. -/
theorem get_replace_option_rename_new (d : Options) (old new : String)
    (h1 : dictContains d old = true) (h2 : dictContains d new = false) :
    dictGet? (replace_option d old new) new = dictGet? d old := by
  obtain ⟨v, hv, he⟩ := replace_option_rename d old new h1 h2
  rw [he, dictGet?_dictSet_self, hv]

/-- `setDefault` makes its key present. -/
theorem contains_setDefault_self (d : Options) (k : String) (v : OptVal) :
    dictContains (setDefault d k v) k = true := by
  unfold setDefault
  cases hc : dictContains d k with
  | true => simp [hc]
  | false => simp [dictContains_dictSet]

/-- `setDefault` leaves the presence of other keys unchanged. -/
theorem contains_setDefault_other (d : Options) (k : String) (v : OptVal)
    (k' : String) (h : k' ≠ k) :
    dictContains (setDefault d k v) k' = dictContains d k' := by
  unfold setDefault
  cases hc : dictContains d k with
  | true => simp
  | false =>
    simp [dictContains_dictSet, decide_eq_false (fun hh : k = k' => h hh.symm)]

/-- `setDefault` is the identity when the key is already present. -/
theorem setDefault_noop (d : Options) (k : String) (v : OptVal)
    (h : dictContains d k = true) :
    setDefault d k v = d := by
  simp [setDefault, h]

/-- `setDefault` leaves the values of other keys unchanged. -/
theorem get_setDefault_other (d : Options) (k : String) (v : OptVal)
    (k' : String) (h : k' ≠ k) :
    dictGet? (setDefault d k v) k' = dictGet? d k' := by
  unfold setDefault
  cases hc : dictContains d k with
  | true => simp
  | false => simp [dictGet?_dictSet_other _ _ _ _ h]

/-- With no Hessian arguments, the option phase is the two alias renames
followed by the four default insertions. -/
theorem option_phase_eq (o : Option Options) (tol : Option ℚ) :
    option_phase o tol none none =
      setDefault (setDefault (setDefault (setDefault
        (replace_option (replace_option (o.getD []) ("disp") ("print_level"))
          ("maxiter") ("max_iter"))
        ("print_level") (OptVal.int 0))
        ("tol") (OptVal.real (tolOrDefault tol)))
        ("mu_strategy") (OptVal.str ("adaptive")))
        ("hessian_approximation") (OptVal.str ("limited-memory")) := rfl

/-- `print_level` is always present after the option phase. -/
theorem option_phase_contains_pl (o : Option Options) (tol : Option ℚ) :
    dictContains (option_phase o tol none none) ("print_level") = true := by
  rw [option_phase_eq,
    contains_setDefault_other _ _ _ _ (by decide),
    contains_setDefault_other _ _ _ _ (by decide),
    contains_setDefault_other _ _ _ _ (by decide)]
  exact contains_setDefault_self _ _ _

/-- `tol` is always present after the option phase. -/
theorem option_phase_contains_tol (o : Option Options) (tol : Option ℚ) :
    dictContains (option_phase o tol none none) ("tol") = true := by
  rw [option_phase_eq,
    contains_setDefault_other _ _ _ _ (by decide),
    contains_setDefault_other _ _ _ _ (by decide)]
  exact contains_setDefault_self _ _ _

/-- `mu_strategy` is always present after the option phase. -/
theorem option_phase_contains_mu (o : Option Options) (tol : Option ℚ) :
    dictContains (option_phase o tol none none) ("mu_strategy") = true := by
  rw [option_phase_eq,
    contains_setDefault_other _ _ _ _ (by decide)]
  exact contains_setDefault_self _ _ _

/-- `hessian_approximation` is always present after the option phase (with
no Hessian arguments). -/
theorem option_phase_contains_ha (o : Option Options) (tol : Option ℚ) :
    dictContains (option_phase o tol none none) ("hessian_approximation")
      = true := by
  rw [option_phase_eq]
  exact contains_setDefault_self _ _ _

/-- `disp` survives the option phase exactly when both `disp` and
`print_level` were supplied. -/
theorem option_phase_contains_disp (opts : Options) (tol : Option ℚ) :
    dictContains (option_phase (some opts) tol none none) ("disp") =
      (dictContains opts ("disp") && dictContains opts ("print_level")) := by
  rw [option_phase_eq,
    contains_setDefault_other _ _ _ _ (by decide),
    contains_setDefault_other _ _ _ _ (by decide),
    contains_setDefault_other _ _ _ _ (by decide),
    contains_setDefault_other _ _ _ _ (by decide),
    contains_replace_option_other _ _ _ _ (by decide) (by decide)]
  exact contains_replace_option_old opts _ _ (by decide)

/-- `maxiter` survives the option phase exactly when both `maxiter` and
`max_iter` were supplied. -/
theorem option_phase_contains_maxiter (opts : Options) (tol : Option ℚ) :
    dictContains (option_phase (some opts) tol none none) ("maxiter") =
      (dictContains opts ("maxiter") && dictContains opts ("max_iter")) := by
  rw [option_phase_eq]
  simp only [Option.getD_some]
  rw [contains_setDefault_other _ _ _ _ (by decide),
    contains_setDefault_other _ _ _ _ (by decide),
    contains_setDefault_other _ _ _ _ (by decide),
    contains_setDefault_other _ _ _ _ (by decide),
    contains_replace_option_old _ _ _ (by decide),
    contains_replace_option_other _ _ _ _ (by decide) (by decide),
    contains_replace_option_other _ _ _ _ (by decide) (by decide)]

/-- When `print_level` was supplied it keeps its value through the option
phase (the `disp` alias does not overwrite it). -/
theorem option_phase_get_pl_kept (opts : Options) (tol : Option ℚ)
    (h : dictContains opts ("print_level") = true) :
    dictGet? (option_phase (some opts) tol none none) ("print_level") =
      dictGet? opts ("print_level") := by
  have h2 : dictContains (replace_option (replace_option opts ("disp")
      ("print_level")) ("maxiter") ("max_iter")) ("print_level") = true := by
    rw [contains_replace_option_other _ _ _ _ (by decide) (by decide),
      contains_replace_option_new opts ("disp") ("print_level")]
    simp [h]
  rw [option_phase_eq]
  simp only [Option.getD_some]
  rw [get_setDefault_other _ _ _ _ (by decide),
    get_setDefault_other _ _ _ _ (by decide),
    get_setDefault_other _ _ _ _ (by decide),
    setDefault_noop _ _ _ h2,
    get_replace_option_other _ _ _ _ (by decide) (by decide),
    replace_option_noop_target opts _ _ h]

/-- When `disp` was supplied and `print_level` was not, `print_level` ends
the option phase holding the `disp` value. -/
theorem option_phase_get_pl_renamed (opts : Options) (tol : Option ℚ)
    (hd : dictContains opts ("disp") = true)
    (hp : dictContains opts ("print_level") = false) :
    dictGet? (option_phase (some opts) tol none none) ("print_level") =
      dictGet? opts ("disp") := by
  have h2 : dictContains (replace_option (replace_option opts ("disp")
      ("print_level")) ("maxiter") ("max_iter")) ("print_level") = true := by
    rw [contains_replace_option_other _ _ _ _ (by decide) (by decide),
      contains_replace_option_new opts ("disp") ("print_level")]
    simp [hd]
  rw [option_phase_eq]
  simp only [Option.getD_some]
  rw [get_setDefault_other _ _ _ _ (by decide),
    get_setDefault_other _ _ _ _ (by decide),
    get_setDefault_other _ _ _ _ (by decide),
    setDefault_noop _ _ _ h2,
    get_replace_option_other _ _ _ _ (by decide) (by decide)]
  exact get_replace_option_rename_new opts _ _ hd hp

/-- C3 counterexample: with `options = {disp: 5, print_level: 3}` the alias
key `disp` is NOT dropped — it is still in the translated dictionary, and a
solver that rejects the non-Ipopt option name `disp` receives it and makes
the call fail, contradicting the claim that neither `disp` nor `maxiter`
reaches the solver in every case. -/
theorem alias_not_dropped_counterexample :
    dictContains (option_phase
        (some [(("disp"), OptVal.int 5), (("print_level"), OptVal.int 3)])
        none none none) ("disp") = true ∧
    (minimize_ipopt dispRejectingSolver (fun _ => PyVal.num 0) (X0.vector [0])
        JacArg.pyNone none none none [] none
        (some [(("disp"), OptVal.int 5), (("print_level"), OptVal.int 3)])).1 =
      .error (.typeError (("Invalid option for IPOPT: ") ++ ("disp"))) :=
  ⟨rfl, rfl⟩

/-- C3 (amended): the alias keys `disp` and `maxiter` are renamed to
`print_level` and `max_iter` when the target is absent, and in that case the
alias does not reach the solver; when the target is already present the
target keeps its value (it is not overwritten) but the alias key is left in
the mapping and is passed to the solver; hence an alias key is among the
translated options exactly when its target was also supplied. -/
theorem alias_translation_amended (opts : Options) (tol : Option ℚ) :
    dictContains (option_phase (some opts) tol none none) ("disp") =
      (dictContains opts ("disp") && dictContains opts ("print_level")) ∧
    dictContains (option_phase (some opts) tol none none) ("maxiter") =
      (dictContains opts ("maxiter") && dictContains opts ("max_iter")) ∧
    (dictContains opts ("print_level") = true →
      dictGet? (option_phase (some opts) tol none none) ("print_level") =
        dictGet? opts ("print_level")) ∧
    (dictContains opts ("disp") = true →
      dictContains opts ("print_level") = false →
      dictGet? (option_phase (some opts) tol none none) ("print_level") =
        dictGet? opts ("disp")) :=
  ⟨option_phase_contains_disp opts tol,
   option_phase_contains_maxiter opts tol,
   fun h => option_phase_get_pl_kept opts tol h,
   fun h1 h2 => option_phase_get_pl_renamed opts tol h1 h2⟩

/-- C3 witness: `{disp: 5}` alone translates to `print_level = 5` with
`disp` gone. -/
theorem alias_translation_amended_witness :
    dictGet? (option_phase (some [(("disp"), OptVal.int 5)]) none none none)
        ("print_level") = some (OptVal.int 5) ∧
    dictContains (option_phase (some [(("disp"), OptVal.int 5)]) none none
        none) ("disp") = false := by
  constructor
  · have h := (alias_translation_amended [(("disp"), OptVal.int 5)] none).2.2.2
      rfl rfl
    rw [h]
    rfl
  · have h := (alias_translation_amended [(("disp"), OptVal.int 5)] none).1
    rw [h]
    rfl

/-- With a valid setup, the final contents of the caller's options
dictionary are the translated dictionary, whether or not the solver rejects
an option (helper, shared). -/
theorem minimize_snd_eq (solver : Solver) (f : Vec → PyVal) (x0 : X0)
    (jacArg : JacArg) (bounds : Option (List (ℚ × ℚ))) (cons : List ConSpec)
    (tol : Option ℚ) (options0 : Option Options)
    (hjac : jacArg ≠ JacArg.other)
    (hcons : ∀ c ∈ cons, c.ctype = "eq" ∨ c.ctype = "ineq") :
    (minimize_ipopt solver f x0 jacArg none none bounds cons tol options0).2 =
      option_phase options0 tol none none := by
  have hgcb := gcb_eq cons (atleast1dX0 x0) ((10 : ℚ) ^ 19) hcons
  cases jacArg with
  | other => exact absurd rfl hjac
  | pyNone =>
    simp only [minimize_ipopt, wrapperInit, Option.isSome_none, Bool.or_self,
      Bool.false_eq_true, if_false, hgcb]
    cases hfr : firstRejected solver.accepts
        (option_phase options0 tol none none) <;> simp [hfr]
  | pyTrue =>
    simp only [minimize_ipopt, wrapperInit, Option.isSome_none, Bool.or_self,
      Bool.false_eq_true, if_false, hgcb]
    cases hfr : firstRejected solver.accepts
        (option_phase options0 tol none none) <;> simp [hfr]
  | func g =>
    simp only [minimize_ipopt, wrapperInit, Option.isSome_none, Bool.or_self,
      Bool.false_eq_true, if_false, hgcb]
    cases hfr : firstRejected solver.accepts
        (option_phase options0 tol none none) <;> simp [hfr]

/-- C9: with a valid setup, the caller-supplied options dictionary itself
ends the call holding the translated contents (aliases renamed, the four
defaults inserted — `print_level`, `tol`, `mu_strategy` and
`hessian_approximation` are all present afterwards); in particular the
caller's dictionary is observably changed whenever `print_level` was absent
from it, and only an omitted options argument is replaced by a fresh
dictionary. -/
theorem options_mutated_in_place (solver : Solver) (f : Vec → PyVal)
    (x0 : X0) (jacArg : JacArg) (bounds : Option (List (ℚ × ℚ)))
    (cons : List ConSpec) (tol : Option ℚ)
    (hjac : jacArg ≠ JacArg.other)
    (hcons : ∀ c ∈ cons, c.ctype = "eq" ∨ c.ctype = "ineq") :
    (∀ d : Options,
      (minimize_ipopt solver f x0 jacArg none none bounds cons tol
          (some d)).2 = option_phase (some d) tol none none) ∧
    (∀ d : Options,
      dictContains (option_phase (some d) tol none none) ("print_level")
        = true ∧
      dictContains (option_phase (some d) tol none none) ("tol") = true ∧
      dictContains (option_phase (some d) tol none none) ("mu_strategy")
        = true ∧
      dictContains (option_phase (some d) tol none none)
        ("hessian_approximation") = true) ∧
    (∀ d : Options, dictContains d ("print_level") = false →
      (minimize_ipopt solver f x0 jacArg none none bounds cons tol
          (some d)).2 ≠ d) ∧
    ((minimize_ipopt solver f x0 jacArg none none bounds cons tol none).2 =
      option_phase none tol none none) := by
  refine ⟨fun d => minimize_snd_eq solver f x0 jacArg bounds cons tol
      (some d) hjac hcons,
    fun d => ⟨option_phase_contains_pl (some d) tol,
      option_phase_contains_tol (some d) tol,
      option_phase_contains_mu (some d) tol,
      option_phase_contains_ha (some d) tol⟩,
    ?_,
    minimize_snd_eq solver f x0 jacArg bounds cons tol none hjac hcons⟩
  intro d hd heq
  rw [minimize_snd_eq solver f x0 jacArg bounds cons tol (some d) hjac
    hcons] at heq
  have hc := option_phase_contains_pl (some d) tol
  rw [heq, hd] at hc
  exact Bool.noConfusion hc

/-- C9 witness: the caller's `{disp: 5}` dictionary does not survive the
call unchanged. -/
theorem options_mutated_in_place_witness :
    (minimize_ipopt acceptAllSolver (fun _ => PyVal.num 0) (X0.vector [0])
        JacArg.pyNone none none none [] none
        (some [(("disp"), OptVal.int 5)])).2 ≠
      [(("disp"), OptVal.int 5)] := by
  exact (options_mutated_in_place acceptAllSolver (fun _ => PyVal.num 0)
    (X0.vector [0]) JacArg.pyNone none [] none
    (fun h => JacArg.noConfusion h) (by simp)).2.2.1
    [(("disp"), OptVal.int 5)] rfl

/-- C5: with a valid setup and a solver honouring the interface contract
(accepting the translated options and returning a solution vector of the
requested dimension), the assembled record satisfies
`success = (status == 0)` for every solver-reported status; the solution is
a vector of length `n` when the initial point was a vector of length `n`,
and is unwrapped to a bare scalar exactly when the initial point was a
zero-dimensional scalar. -/
theorem result_record_assembly (solver : Solver) (f : Vec → PyVal) (x0 : X0)
    (jacArg : JacArg) (bounds : Option (List (ℚ × ℚ))) (cons : List ConSpec)
    (tol : Option ℚ) (options0 : Option Options)
    (hjac : jacArg ≠ JacArg.other)
    (hcons : ∀ c ∈ cons, c.ctype = "eq" ∨ c.ctype = "ineq")
    (hacc : firstRejected solver.accepts (option_phase options0 tol none none)
      = none)
    (hlen : ∀ (w : Wrapper) (v : Vec),
      ((solver.solve w v).1.1).length = v.length) :
    ∃ res, (minimize_ipopt solver f x0 jacArg none none bounds cons tol
        options0).1 = .ok res ∧
      res.success = (res.status == 0) ∧
      (∀ v : Vec, x0 = X0.vector v →
        ∃ u, res.x = SolvedX.vector u ∧ u.length = v.length) ∧
      (∀ q : ℚ, x0 = X0.scalar q → ∃ r, res.x = SolvedX.scalar r) := by
  have hgcb := gcb_eq cons (atleast1dX0 x0) ((10 : ℚ) ^ 19) hcons
  cases jacArg with
  | other => exact absurd rfl hjac
  | pyNone =>
    rcases hsv : solver.solve (mkWrapper f false
        (fun x0 => approx_fprime x0 f (1 / 10 ^ 8)) cons (1 / 10 ^ 8))
        (atleast1dX0 x0) with ⟨⟨xsol, info⟩, problem'⟩
    refine ⟨{ x := match x0 with
                   | .scalar _ => .scalar (xsol.getD 0 0)
                   | .vector _ => .vector xsol
              success := info.status == 0
              status := info.status
              message := info.status_msg
              fun_val := info.obj_val
              nfev := problem'.nfev
              njev := problem'.njev
              nit := problem'.nit }, ?_, rfl, ?_, ?_⟩
    · simp only [minimize_ipopt, wrapperInit, Option.isSome_none, Bool.or_self,
        Bool.false_eq_true, if_false, hgcb, hacc, hsv]
      cases x0 <;> rfl
    · intro v hv
      subst hv
      refine ⟨xsol, rfl, ?_⟩
      have hl := hlen (mkWrapper f false
        (fun x0 => approx_fprime x0 f (1 / 10 ^ 8)) cons (1 / 10 ^ 8)) v
      simp only [atleast1dX0] at hsv
      rw [hsv] at hl
      simpa using hl
    · intro q hq
      subst hq
      exact ⟨xsol.getD 0 0, rfl⟩
  | pyTrue =>
    rcases hsv : solver.solve (mkWrapper f true (fun _ => PyVal.num 0) cons
        (1 / 10 ^ 8)) (atleast1dX0 x0) with ⟨⟨xsol, info⟩, problem'⟩
    refine ⟨{ x := match x0 with
                   | .scalar _ => .scalar (xsol.getD 0 0)
                   | .vector _ => .vector xsol
              success := info.status == 0
              status := info.status
              message := info.status_msg
              fun_val := info.obj_val
              nfev := problem'.nfev
              njev := problem'.njev
              nit := problem'.nit }, ?_, rfl, ?_, ?_⟩
    · simp only [minimize_ipopt, wrapperInit, Option.isSome_none, Bool.or_self,
        Bool.false_eq_true, if_false, hgcb, hacc, hsv]
      cases x0 <;> rfl
    · intro v hv
      subst hv
      refine ⟨xsol, rfl, ?_⟩
      have hl := hlen (mkWrapper f true (fun _ => PyVal.num 0) cons
        (1 / 10 ^ 8)) v
      simp only [atleast1dX0] at hsv
      rw [hsv] at hl
      simpa using hl
    · intro q hq
      subst hq
      exact ⟨xsol.getD 0 0, rfl⟩
  | func g =>
    rcases hsv : solver.solve (mkWrapper f false g cons (1 / 10 ^ 8))
        (atleast1dX0 x0) with ⟨⟨xsol, info⟩, problem'⟩
    refine ⟨{ x := match x0 with
                   | .scalar _ => .scalar (xsol.getD 0 0)
                   | .vector _ => .vector xsol
              success := info.status == 0
              status := info.status
              message := info.status_msg
              fun_val := info.obj_val
              nfev := problem'.nfev
              njev := problem'.njev
              nit := problem'.nit }, ?_, rfl, ?_, ?_⟩
    · simp only [minimize_ipopt, wrapperInit, Option.isSome_none, Bool.or_self,
        Bool.false_eq_true, if_false, hgcb, hacc, hsv]
      cases x0 <;> rfl
    · intro v hv
      subst hv
      refine ⟨xsol, rfl, ?_⟩
      have hl := hlen (mkWrapper f false g cons (1 / 10 ^ 8)) v
      simp only [atleast1dX0] at hsv
      rw [hsv] at hl
      simpa using hl
    · intro q hq
      subst hq
      exact ⟨xsol.getD 0 0, rfl⟩

/-- C5 witness: a concrete run with the accept-all solver from the vector
starting point `[1, 2]`. -/
theorem result_record_assembly_witness :
    ∃ res, (minimize_ipopt acceptAllSolver (fun _ => PyVal.num 0)
        (X0.vector [1, 2]) JacArg.pyNone none none none [] none none).1 =
      .ok res ∧
      res.success = (res.status == 0) ∧
      (∀ v : Vec, X0.vector [1, 2] = X0.vector v →
        ∃ u, res.x = SolvedX.vector u ∧ u.length = v.length) ∧
      (∀ q : ℚ, X0.vector [1, 2] = X0.scalar q →
        ∃ r, res.x = SolvedX.scalar r) := by
  exact result_record_assembly acceptAllSolver (fun _ => PyVal.num 0)
    (X0.vector [1, 2]) JacArg.pyNone none [] none none
    (fun h => JacArg.noConfusion h) (by simp) rfl (fun w v => rfl)

end IpoptWrapper
